import Mathlib

/-!
Verification of the table-of-contents builder (src/src/toc.rs).

The Rust types are embedded shallowly: `TocElement` becomes a recursive
inductive, `Toc` a structure wrapping a list, mutable-reference methods
become pure functions from the old value to the new value, and the u32
offset threaded through the EPUB renderer becomes a `Nat`.  The external
escaping collaborator (the html_escape crate) is modelled from the spec.
-/

namespace Epub

/-- A node of the table of contents (struct TocElement in src/src/toc.rs):
a nesting level, a link, a title, and the ordered list of child nodes. -/
inductive TocElement : Type where
  | mk (level : Int) (url : String) (title : String) (children : List TocElement)

/-- The level field of a TocElement. -/
def TocElement.level : TocElement → Int
  | .mk l _ _ _ => l

/-- The url field of a TocElement. -/
def TocElement.url : TocElement → String
  | .mk _ u _ _ => u

/-- The title field of a TocElement. -/
def TocElement.title : TocElement → String
  | .mk _ _ t _ => t

/-- The children field of a TocElement. -/
def TocElement.children : TocElement → List TocElement
  | .mk _ _ _ cs => cs

/-- TocElement::new — a fresh element at level 1 with no children. -/
def TocElement.new (url title : String) : TocElement :=
  .mk 1 url title []

/-- The fluent level setter (method TocElement::level in the source; renamed
here because the field accessor already carries that name). -/
def TocElement.levelSet : TocElement → Int → TocElement
  | .mk _ u t cs, l => .mk l u t cs

/-- Modelled from the spec: the external escaping collaborator
(html_escape::encode_text), a pure function required to escape at minimum
the characters ampersand, less-than and greater-than in text content.
Character-list worker. -/
def encodeTextChars : List Char → String
  | [] => ""
  | c :: cs =>
    (if c = '&' then "&amp;"
     else if c = '<' then "&lt;"
     else if c = '>' then "&gt;"
     else String.singleton c) ++ encodeTextChars cs

/-- Modelled from the spec: HTML text escaping of a whole string. -/
def encodeText (s : String) : String :=
  encodeTextChars s.data

/-- Modelled from the Rust standard library collaborator str::trim: the
whitespace test of one character, the Unicode White_Space property. -/
def isRustWhitespace (c : Char) : Bool :=
  c = ' ' || c = '\t' || c = '\n' || c = '\x0b' || c = '\x0c' || c = '\r'
    || c = '\u0085' || c = '\u00A0' || c = '\u1680'
    || ('\u2000' ≤ c && c ≤ '\u200A')
    || c = '\u2028' || c = '\u2029' || c = '\u202F' || c = '\u205F' || c = '\u3000'

/-- Modelled from the Rust standard library collaborator str::trim on the
character list: drop leading and trailing whitespace. -/
def trimChars (cs : List Char) : List Char :=
  ((cs.dropWhile isRustWhitespace).reverse.dropWhile isRustWhitespace).reverse

/-- Modelled from the Rust standard library collaborator str::trim. -/
def trimText (s : String) : String :=
  ⟨trimChars s.data⟩

mutual

/-- TocElement::level_up — set this level, then recurse with level + 1 into
every child whose level is at most the freshly written level. -/
def TocElement.level_up : TocElement → Int → TocElement
  | .mk _ u t cs, level => .mk level u t (levelUpChildren cs level)

/-- The loop body of level_up over the children list: a child whose level is
at most the parent's new level is lifted, any other child is kept as is. -/
def levelUpChildren : List TocElement → Int → List TocElement
  | [], _ => []
  | c :: cs, level =>
    (if c.level ≤ level then c.level_up (level + 1) else c) :: levelUpChildren cs level

end

/-- TocElement::child — lift the child to level self.level + 1 when its level
is not already strictly deeper, then append it to the children list. -/
def TocElement.child : TocElement → TocElement → TocElement
  | .mk l u t cs, c =>
    .mk l u t (cs ++ [if c.level ≤ l then c.level_up (l + 1) else c])

mutual

/-- TocElement::add — when the last child exists and the new element is
strictly deeper than it, insert recursively into that last child; otherwise
push the new element onto the children list. -/
def TocElement.add : TocElement → TocElement → TocElement
  | .mk l u t cs, e => .mk l u t (addLast cs e)

/-- The insertion rule shared by TocElement::add and Toc::add, acting on an
ordered sibling list: look only at the last sibling, descend into it when the
new element is strictly deeper, append otherwise. -/
def addLast : List TocElement → TocElement → List TocElement
  | [], e => [e]
  | [last], e => if last.level < e.level then [last.add e] else [last, e]
  | c :: c2 :: rest, e => c :: addLast (c2 :: rest) e

end

mutual

/-- Total number of nodes of a subtree. -/
def TocElement.size : TocElement → Nat
  | .mk _ _ _ cs => 1 + sizeList cs

/-- Total number of nodes of a forest. -/
def sizeList : List TocElement → Nat
  | [] => 0
  | c :: cs => c.size + sizeList cs

end

mutual

/-- TocElement::render_epub — pre-order rendering to the toc.ncx navMap
format, threading the id counter: the node takes offset + 1 as its id, the
children continue from there, and the final counter is returned. -/
def TocElement.render_epub : TocElement → Nat → Nat × String
  | .mk _ u t cs, offset =>
    let id := offset + 1
    let (final, children) := renderEpubChildren cs id
    (final,
      "\n<navPoint id=\"navPoint-" ++ toString id ++ "\">\n  <navLabel>\n   <text>"
        ++ trimText (encodeText t)
        ++ "</text>\n  </navLabel>\n  <content src=\"" ++ u ++ "\" />\n"
        ++ children ++ "\n</navPoint>")

/-- The loop of render_epub over a sibling list: each sibling receives the
counter its predecessor returned, and the rendered strings are concatenated. -/
def renderEpubChildren : List TocElement → Nat → Nat × String
  | [], offset => (offset, "")
  | c :: cs, offset =>
    let (n, s) := c.render_epub offset
    let (m, rest) := renderEpubChildren cs n
    (m, s ++ rest)

end

/-- The list tag chosen by the numbered flag. -/
def oul (numbered : Bool) : String :=
  if numbered then "ol" else "ul"

mutual

/-- TocElement::render — list-form rendering: an empty title yields the empty
string; otherwise a list item with the raw url, the escaped title, and, when
children exist, a nested list of the children. -/
def TocElement.render : TocElement → Bool → String
  | .mk _ u t cs, numbered =>
    if t = "" then ""
    else
      let children :=
        match cs with
        | [] => ""
        | _ :: _ =>
          "\n<" ++ oul numbered ++ ">" ++ renderChildren cs numbered
            ++ "\n</" ++ oul numbered ++ ">\n"
      "<li><a href=\"" ++ u ++ "\">" ++ encodeText t ++ "</a>" ++ children ++ "</li>\n"

/-- The loop of render over a sibling list: concatenation in order. -/
def renderChildren : List TocElement → Bool → String
  | [], _ => ""
  | c :: cs, numbered => c.render numbered ++ renderChildren cs numbered

end

/-- The table of contents (struct Toc in src/src/toc.rs): the ordered
top-level elements. -/
structure Toc where
  elements : List TocElement

/-- Toc::new — the empty table of contents. -/
def Toc.new : Toc := ⟨[]⟩

/-- Toc::is_empty — true when the toc holds zero or one top-level element. -/
def Toc.is_empty (toc : Toc) : Bool :=
  toc.elements.length ≤ 1

/-- Toc::add — the same last-sibling insertion rule as TocElement::add,
acting on the top-level elements. -/
def Toc.add (toc : Toc) (e : TocElement) : Toc :=
  ⟨addLast toc.elements e⟩

/-- Toc::render_epub — run the element renderer over the top-level elements
starting the id counter at 0 and concatenate the output. -/
def Toc.render_epub (toc : Toc) : String :=
  (renderEpubChildren toc.elements 0).2

/-- Toc::render — wrap the concatenated element renderings in one outer
list tag pair chosen by the numbered flag. -/
def Toc.render (toc : Toc) (numbered : Bool) : String :=
  "<" ++ oul numbered ++ ">\n" ++ renderChildren toc.elements numbered
    ++ "\n</" ++ oul numbered ++ ">\n"

/-- Total number of nodes in a toc. -/
def Toc.size (toc : Toc) : Nat :=
  sizeList toc.elements

mutual

/-- The levels of a subtree, in pre-order. -/
def levelsOf : TocElement → List Int
  | .mk l _ _ cs => l :: levelsOfList cs

/-- The levels of a forest, in pre-order. -/
def levelsOfList : List TocElement → List Int
  | [] => []
  | c :: cs => levelsOf c ++ levelsOfList cs

end

mutual

/-- The level-rewriting rule exactly as the specification words it (for
comparison with the source function level_up): set the level to new_level,
then recurse with new_level + 1 into each child whose level was at most the
OLD level of the node. -/
def levelUpSpec : TocElement → Int → TocElement
  | .mk l u t cs, n => .mk n u t (levelUpSpecChildren cs l n)

/-- The children loop of levelUpSpec; the first Int is the OLD level of the
parent, the second the new level written into the parent. -/
def levelUpSpecChildren : List TocElement → Int → Int → List TocElement
  | [], _, _ => []
  | c :: cs, old, n =>
    (if c.level ≤ old then levelUpSpec c (n + 1) else c) :: levelUpSpecChildren cs old n

end

/-- The child-attachment rule as the specification words it, built on
levelUpSpec instead of level_up. -/
def childSpec : TocElement → TocElement → TocElement
  | .mk l u t cs, c =>
    .mk l u t (cs ++ [if c.level ≤ l then levelUpSpec c (l + 1) else c])

mutual

/-- Closed form of the navMap rendering of one node whose assigned id is
given directly: the children are numbered from id + 1 on, each sibling
starting where the previous subtree ended. -/
def navString : TocElement → Nat → String
  | .mk _ u t cs, id =>
    "\n<navPoint id=\"navPoint-" ++ toString id ++ "\">\n  <navLabel>\n   <text>"
      ++ trimText (encodeText t)
      ++ "</text>\n  </navLabel>\n  <content src=\"" ++ u ++ "\" />\n"
      ++ navStringList cs (id + 1) ++ "\n</navPoint>"

/-- Closed form of the navMap rendering of a forest whose first id is given
directly: each sibling advances the id by the size of the previous subtree. -/
def navStringList : List TocElement → Nat → String
  | [], _ => ""
  | c :: cs, id => navString c id ++ navStringList cs (id + c.size)

end

mutual

/-- The navPoint ids emitted for a subtree whose root receives the given id,
in the order the renderer emits them. -/
def navIds : TocElement → Nat → List Nat
  | .mk _ _ _ cs, id => id :: navIdsList cs (id + 1)

/-- The navPoint ids emitted for a forest whose first node receives the
given id. -/
def navIdsList : List TocElement → Nat → List Nat
  | [], _ => []
  | c :: cs, id => navIds c id ++ navIdsList cs (id + c.size)

end

/-- The navPoint ids emitted for a whole toc, in emission order. -/
def Toc.navPointIds (toc : Toc) : List Nat :=
  navIdsList toc.elements 1

mutual

/-- The strict-depth invariant of one node: every child is strictly deeper
than the node, recursively. -/
def strictDepth : TocElement → Bool
  | .mk l _ _ cs => strictChildren l cs

/-- The strict-depth invariant of a children list under a parent level. -/
def strictChildren : Int → List TocElement → Bool
  | _, [] => true
  | l, c :: cs => (decide (l < c.level) && strictDepth c) && strictChildren l cs

end

/-- The strict-depth invariant over the top-level elements of a toc. -/
def Toc.strictInv (toc : Toc) : Bool :=
  toc.elements.all strictDepth

/-- State-passing embedding of the list-render loop of Toc::render, which
iterates over the borrowed elements: it returns the concatenated output
together with the element list the loop hands back. -/
def renderElemsMut : List TocElement → Bool → String × List TocElement
  | [], _ => ("", [])
  | e :: es, numbered =>
    let s := e.render numbered
    let (rest, es2) := renderElemsMut es numbered
    (s ++ rest, e :: es2)

/-- State-passing embedding of Toc::render, whose Rust signature takes the
toc by mutable reference: the returned pair is the rendered string and the
toc as it is after the call. -/
def Toc.renderMut (toc : Toc) (numbered : Bool) : String × Toc :=
  let (out, es) := renderElemsMut toc.elements numbered
  ("<" ++ oul numbered ++ ">\n" ++ out ++ "\n</" ++ oul numbered ++ ">\n", ⟨es⟩)

/-- State-passing embedding of the navMap-render loop of Toc::render_epub. -/
def renderEpubElemsMut : List TocElement → Nat → Nat × String × List TocElement
  | [], offset => (offset, "", [])
  | e :: es, offset =>
    let (n, s) := e.render_epub offset
    let (m, rest, es2) := renderEpubElemsMut es n
    (m, s ++ rest, e :: es2)

/-- State-passing embedding of Toc::render_epub, whose Rust signature takes
the toc by mutable reference. -/
def Toc.renderEpubMut (toc : Toc) : String × Toc :=
  let (_, out, es) := renderEpubElemsMut toc.elements 0
  (out, ⟨es⟩)

/-- The toc built by the repository test toc_simple: five entries with links
numbered 1 to 5, levels 3, 1, 3, 2, 1 and the titles of the test. -/
def tocSimple : Toc :=
  ((((Toc.new.add ((TocElement.new "#1" "0.0.1").levelSet 3)).add
      ((TocElement.new "#2" "1").levelSet 1)).add
      ((TocElement.new "#3" "1.0.1").levelSet 3)).add
      ((TocElement.new "#4" "1.1").levelSet 2)).add
      (TocElement.new "#5" "2")

/-- A one-entry toc whose title holds an ampersand, from the repository test
toc_epub_title_escaped. -/
def tocAmpersand : Toc :=
  Toc.new.add (TocElement.new "#1" "D&D")

/-- A toc whose ampersand-titled entry holds a child with a less-than in its
title, to observe escaping on an entry with children in both render forms. -/
def tocNested : Toc :=
  (Toc.new.add (TocElement.new "#1" "D&D")).add
    ((TocElement.new "#2" "a<b").levelSet 2)

/-! ## Helper lemmas -/

/-- Unfolding TocElement.add: the root fields survive and the children list
goes through the shared insertion rule. -/
theorem add_def (l : Int) (u t : String) (cs : List TocElement) (e : TocElement) :
    TocElement.add (.mk l u t cs) e = .mk l u t (addLast cs e) :=
  rfl

/-- When the last sibling exists and the new element is not strictly deeper,
the shared insertion rule appends the new element. -/
theorem addLast_append_of_le : ∀ (cs : List TocElement) (last e : TocElement),
    cs.getLast? = some last → e.level ≤ last.level → addLast cs e = cs ++ [e]
  | [], _, _, h, _ => by simp at h
  | [x], last, e, h, hle => by
    simp at h
    subst h
    simp [addLast, if_neg (not_lt.mpr hle)]
  | c :: c2 :: rest, last, e, h, hle => by
    rw [List.getLast?_cons_cons] at h
    have ih := addLast_append_of_le (c2 :: rest) last e h hle
    simp only [addLast, ih, List.cons_append]

/-- When the last sibling exists and the new element is strictly deeper, the
shared insertion rule replaces the last sibling by the recursive insertion
into it and keeps every other sibling in place. -/
theorem addLast_descend : ∀ (cs : List TocElement) (last e : TocElement),
    cs.getLast? = some last → last.level < e.level →
    addLast cs e = cs.dropLast ++ [last.add e]
  | [], _, _, h, _ => by simp at h
  | [x], last, e, h, hlt => by
    simp at h
    subst h
    simp [addLast, if_pos hlt]
  | c :: c2 :: rest, last, e, h, hlt => by
    rw [List.getLast?_cons_cons] at h
    have ih := addLast_descend (c2 :: rest) last e h hlt
    simp only [addLast, ih, List.dropLast_cons₂, List.cons_append]

mutual

/-- The insertion of one element grows the node count of a subtree by
exactly the node count of the inserted element. -/
theorem add_size : ∀ (p e : TocElement), (p.add e).size = p.size + e.size
  | .mk l u t cs, e => by
    have ih := addLast_size cs e
    simp [TocElement.add, TocElement.size, ih]
    omega

/-- The insertion of one element grows the node count of a forest by exactly
the node count of the inserted element. -/
theorem addLast_size : ∀ (cs : List TocElement) (e : TocElement),
    sizeList (addLast cs e) = sizeList cs + e.size
  | [], e => by simp [addLast, sizeList]
  | [last], e => by
    by_cases hlt : last.level < e.level
    · have ih := add_size last e
      simp [addLast, if_pos hlt, sizeList, ih]
    · simp [addLast, if_neg hlt, sizeList]
  | c :: c2 :: rest, e => by
    have ih := addLast_size (c2 :: rest) e
    simp only [addLast, sizeList, ih]
    omega

end

mutual

/-- The renderer for the navMap form returns the counter advanced by the
subtree node count, and its string is the closed navString form where the
node id is the incoming counter plus one. -/
theorem renderEpub_eq : ∀ (e : TocElement) (off : Nat),
    e.render_epub off = (off + e.size, navString e (off + 1))
  | .mk l u t cs, off => by
    have ih := renderEpubChildren_eq cs (off + 1)
    simp [TocElement.render_epub, TocElement.size, navString, ih]
    omega

/-- The navMap loop over a forest returns the counter advanced by the forest
node count, and its string is the closed navStringList form starting at the
incoming counter plus one. -/
theorem renderEpubChildren_eq : ∀ (cs : List TocElement) (off : Nat),
    renderEpubChildren cs off = (off + sizeList cs, navStringList cs (off + 1))
  | [], off => by simp [renderEpubChildren, sizeList, navStringList]
  | c :: cs, off => by
    have ih1 := renderEpub_eq c off
    have ih2 := renderEpubChildren_eq cs (off + c.size)
    simp [renderEpubChildren, sizeList, navStringList, ih1, ih2]
    constructor
    · omega
    · have : off + c.size + 1 = off + 1 + c.size := by omega
      rw [this]

end

mutual

/-- The ids assigned to a subtree whose root receives id i are exactly the
consecutive run i, i + 1, ..., i + size - 1, in pre-order. -/
theorem navIds_eq_range : ∀ (e : TocElement) (i : Nat),
    navIds e i = List.range' i e.size
  | .mk l u t cs, i => by
    have ih := navIdsList_eq_range cs (i + 1)
    simp [navIds, TocElement.size, ih]
    rw [Nat.add_comm 1 (sizeList cs), List.range'_succ]

/-- The ids assigned to a forest whose first node receives id i are exactly
the consecutive run of length the forest node count. -/
theorem navIdsList_eq_range : ∀ (cs : List TocElement) (i : Nat),
    navIdsList cs i = List.range' i (sizeList cs)
  | [], i => by simp [navIdsList, sizeList]
  | c :: cs, i => by
    have ih1 := navIds_eq_range c i
    have ih2 := navIdsList_eq_range cs (i + c.size)
    simp [navIdsList, sizeList, ih1, ih2, List.range'_append_1]
    omega

end

/-- level_up writes exactly the requested level into the node. -/
theorem level_up_level : ∀ (e : TocElement) (n : Int), (e.level_up n).level = n
  | .mk _ _ _ _, _ => rfl

/-- Insertion by add never changes the level of the node inserted into. -/
theorem add_level : ∀ (p e : TocElement), (p.add e).level = p.level
  | .mk _ _ _ _, _ => rfl

/-- The strict-depth check of a children list distributes over appending one
more child. -/
theorem strictChildren_append : ∀ (l : Int) (cs : List TocElement) (x : TocElement),
    strictChildren l (cs ++ [x])
      = (strictChildren l cs && (decide (l < x.level) && strictDepth x))
  | _, [], _ => by simp [strictChildren]
  | l, c :: cs, x => by
    have ih := strictChildren_append l cs x
    simp [strictChildren, ih, Bool.and_assoc]

mutual

/-- level_up keeps the strict-depth invariant of the rewritten subtree. -/
theorem levelUp_strict : ∀ (e : TocElement) (n : Int),
    strictDepth e = true → strictDepth (e.level_up n) = true
  | .mk l u t cs, n, h => by
    simp only [strictDepth, TocElement.level_up] at h ⊢
    exact levelUpChildren_strict cs l n h

/-- The children loop of level_up turns any invariant-satisfying children
list into one satisfying the invariant under the new parent level. -/
theorem levelUpChildren_strict : ∀ (cs : List TocElement) (l n : Int),
    strictChildren l cs = true → strictChildren n (levelUpChildren cs n) = true
  | [], _, _, _ => rfl
  | c :: cs, l, n, h => by
    simp only [strictChildren, Bool.and_eq_true, decide_eq_true_eq] at h
    obtain ⟨⟨hlt, hc⟩, hcs⟩ := h
    have ih := levelUpChildren_strict cs l n hcs
    by_cases hle : c.level ≤ n
    · have hs := levelUp_strict c (n + 1) hc
      simp [levelUpChildren, if_pos hle, strictChildren, ih, hs, level_up_level]
    · simp [levelUpChildren, if_neg hle, strictChildren, ih, hc]
      omega

end

mutual

/-- Inserting a strictly deeper, invariant-satisfying element by add keeps
the strict-depth invariant of the node inserted into. -/
theorem add_strict : ∀ (p e : TocElement),
    strictDepth p = true → strictDepth e = true → p.level < e.level →
    strictDepth (p.add e) = true
  | .mk l u t cs, e, hp, he, hlt => by
    simp only [strictDepth, TocElement.level, TocElement.add] at hp hlt ⊢
    exact addLast_strict cs e l hp he hlt

/-- The shared insertion rule keeps the strict-depth invariant of a sibling
list, provided the inserted element is strictly deeper than the parent. -/
theorem addLast_strict : ∀ (cs : List TocElement) (e : TocElement) (l : Int),
    strictChildren l cs = true → strictDepth e = true → l < e.level →
    strictChildren l (addLast cs e) = true
  | [], e, l, _, he, hlt => by simp [addLast, strictChildren, he, hlt]
  | [last], e, l, h, he, hlt => by
    simp only [strictChildren, Bool.and_eq_true, decide_eq_true_eq] at h
    obtain ⟨⟨hl, hsd⟩, _⟩ := h
    by_cases hd : last.level < e.level
    · have hrec := add_strict last e hsd he hd
      simp [addLast, if_pos hd, strictChildren, hrec, add_level, hl]
    · simp [addLast, if_neg hd, strictChildren, hl, hsd, he, hlt]
  | c :: c2 :: rest, e, l, h, he, hlt => by
    rw [strictChildren] at h
    simp only [Bool.and_eq_true, decide_eq_true_eq] at h
    obtain ⟨⟨hl, hsd⟩, hrest⟩ := h
    have ih := addLast_strict (c2 :: rest) e l hrest he hlt
    rw [addLast, strictChildren]
    simp only [Bool.and_eq_true, decide_eq_true_eq]
    exact ⟨⟨hl, hsd⟩, ih⟩

end

/-- The shared insertion rule keeps the strict-depth invariant of every
member of a top-level element list, with no parent-level constraint. -/
theorem addLast_all_strict : ∀ (cs : List TocElement) (e : TocElement),
    cs.all strictDepth = true → strictDepth e = true →
    (addLast cs e).all strictDepth = true
  | [], e, _, he => by simp [addLast, he]
  | [last], e, h, he => by
    simp only [List.all_cons, List.all_nil, Bool.and_eq_true] at h
    obtain ⟨hl, _⟩ := h
    by_cases hd : last.level < e.level
    · have hrec := add_strict last e hl he hd
      simp [addLast, if_pos hd, hrec]
    · simp [addLast, if_neg hd, hl, he]
  | c :: c2 :: rest, e, h, he => by
    rw [List.all_cons] at h
    simp only [Bool.and_eq_true] at h
    obtain ⟨hc, hrest⟩ := h
    have ih := addLast_all_strict (c2 :: rest) e hrest he
    simp [addLast, hc, ih]

/-- The children loop of level_up is a pointwise map over the children. -/
theorem levelUpChildren_eq_map : ∀ (cs : List TocElement) (n : Int),
    levelUpChildren cs n = cs.map fun c => if c.level ≤ n then c.level_up (n + 1) else c
  | [], _ => rfl
  | c :: cs, n => by
    have ih := levelUpChildren_eq_map cs n
    simp [levelUpChildren, ih]

/-- The list-render loop returns the concatenated rendering together with
the element list it walked, unchanged. -/
theorem renderElemsMut_eq : ∀ (es : List TocElement) (b : Bool),
    renderElemsMut es b = (renderChildren es b, es)
  | [], _ => rfl
  | e :: es, b => by
    have ih := renderElemsMut_eq es b
    simp [renderElemsMut, renderChildren, ih]

/-- The navMap-render loop returns the counter, the concatenated rendering,
and the element list it walked, unchanged. -/
theorem renderEpubElemsMut_eq : ∀ (es : List TocElement) (off : Nat),
    renderEpubElemsMut es off
      = ((renderEpubChildren es off).1, (renderEpubChildren es off).2, es)
  | [], _ => rfl
  | e :: es, off => by
    have ih := renderEpubElemsMut_eq es (e.render_epub off).1
    simp [renderEpubElemsMut, renderEpubChildren, ih]

/-- Attaching a child with TocElement.child keeps the strict-depth invariant:
the attached node is always strictly deeper than its new parent, either
because it already was or because level_up rewrote it. -/
theorem child_strict : ∀ (p c : TocElement),
    strictDepth p = true → strictDepth c = true → strictDepth (p.child c) = true
  | .mk l u t cs, c, hp, hc => by
    simp only [strictDepth, TocElement.child] at hp ⊢
    rw [strictChildren_append]
    by_cases hle : c.level ≤ l
    · simp [if_pos hle, hp, levelUp_strict c (l + 1) hc, level_up_level]
    · simp [if_neg hle, hp, hc]
      omega

/-! ## Claim theorems -/

/-- Claim C1: for every add call, on a Toc or inside an entry, an empty
sibling sequence or a new entry at most as deep as the last sibling means the
entry is appended unchanged as a new sibling; a strictly deeper entry is
instead inserted recursively into the last sibling, every other sibling
untouched, so it lands on the rightmost spine at the deepest point allowed by
the level comparison at each depth; and Toc.add and TocElement.add both run
this one rule on their respective sibling lists. -/
theorem c1_greedy_last_sibling :
    (∀ e : TocElement, addLast [] e = [e])
    ∧ (∀ (cs : List TocElement) (last e : TocElement), cs.getLast? = some last →
        e.level ≤ last.level → addLast cs e = cs ++ [e])
    ∧ (∀ (cs : List TocElement) (last e : TocElement), cs.getLast? = some last →
        last.level < e.level → addLast cs e = cs.dropLast ++ [last.add e])
    ∧ (∀ (l : Int) (u t : String) (cs : List TocElement) (e : TocElement),
        TocElement.add (.mk l u t cs) e = .mk l u t (addLast cs e))
    ∧ (∀ (toc : Toc) (e : TocElement), (toc.add e).elements = addLast toc.elements e) :=
  ⟨fun _ => rfl, addLast_append_of_le, addLast_descend, fun _ _ _ _ _ => rfl,
    fun _ _ => rfl⟩

/-- Witness for C1 at concrete inputs: a one-element sibling list, one
insertion at equal level that appends, exercising the hypotheses. -/
theorem c1_greedy_last_sibling_witness :
    ([TocElement.mk 1 "a" "A" []].getLast? = some (TocElement.mk 1 "a" "A" []))
    ∧ (TocElement.mk 1 "b" "B" []).level ≤ (TocElement.mk 1 "a" "A" []).level
    ∧ addLast [TocElement.mk 1 "a" "A" []] (TocElement.mk 1 "b" "B" [])
        = [TocElement.mk 1 "a" "A" []] ++ [TocElement.mk 1 "b" "B" []] :=
  ⟨rfl, by decide,
    c1_greedy_last_sibling.2.1 [TocElement.mk 1 "a" "A" []]
      (TocElement.mk 1 "a" "A" []) (TocElement.mk 1 "b" "B" []) rfl (by decide)⟩

/-- Claim C2: render_epub threads the counter in strict pre-order: the value
returned for a subtree is the incoming offset plus the subtree node count,
the emitted string is the closed navString form in which a node takes
offset + 1 as its id and its children continue from there, and the ids of a
whole toc are exactly the consecutive run 1, ..., N in emission order. -/
theorem c2_preorder_ids :
    (∀ (e : TocElement) (off : Nat),
      e.render_epub off = (off + e.size, navString e (off + 1)))
    ∧ (∀ toc : Toc, toc.render_epub = navStringList toc.elements 1)
    ∧ (∀ (e : TocElement) (i : Nat), navIds e i = List.range' i e.size)
    ∧ (∀ toc : Toc, toc.navPointIds = List.range' 1 toc.size) := by
  refine ⟨renderEpub_eq, ?_, navIds_eq_range, ?_⟩
  · intro toc
    show (renderEpubChildren toc.elements 0).2 = _
    rw [renderEpubChildren_eq]
  · intro toc
    show navIdsList toc.elements 1 = _
    rw [navIdsList_eq_range]
    rfl

set_option maxRecDepth 10000 in
/-- Claim C3: the five insertions of the repository test toc_simple, rendered
as an unnumbered list, give exactly the expected markup. -/
theorem c3_round_trip :
    tocSimple.render false
      = "<ul>\n<li><a href=\"#1\">0.0.1</a></li>\n<li><a href=\"#2\">1</a>\n<ul><li><a href=\"#3\">1.0.1</a></li>\n<li><a href=\"#4\">1.1</a></li>\n\n</ul>\n</li>\n<li><a href=\"#5\">2</a></li>\n\n</ul>\n" := by
  decide

/-- Claim C8: insertion is total and size-preserving in the strong sense
that the inserted subtree is fully incorporated: adding an element grows the
node count of a Toc, or of an entry, by exactly the node count of the
element, with no precondition on the level, and a level-2 or negative-level
entry added to an empty Toc simply becomes its only top-level element. -/
theorem c8_add_total :
    (∀ (toc : Toc) (e : TocElement), (toc.add e).size = toc.size + e.size)
    ∧ (∀ (p e : TocElement), (p.add e).size = p.size + e.size)
    ∧ (Toc.new.add (TocElement.mk 2 "s.xhtml" "S" [])).elements
        = [TocElement.mk 2 "s.xhtml" "S" []]
    ∧ (Toc.new.add (TocElement.mk (-7) "n.xhtml" "N" [])).elements
        = [TocElement.mk (-7) "n.xhtml" "N" []] := by
  refine ⟨?_, add_size, rfl, rfl⟩
  intro toc e
  show sizeList (addLast toc.elements e) = sizeList toc.elements + e.size
  exact addLast_size toc.elements e

/-- Claim C9: is_empty holds exactly when the toc has at most one top-level
element; a toc holding exactly one element is still reported empty, and a
second element appended at top level makes is_empty false. -/
theorem c9_is_empty_iff :
    (∀ toc : Toc, toc.is_empty = true ↔ toc.elements.length ≤ 1)
    ∧ (∀ e : TocElement, (Toc.new.add e).is_empty = true)
    ∧ (∀ e1 e2 : TocElement, e2.level ≤ e1.level →
        ((Toc.new.add e1).add e2).is_empty = false) := by
  refine ⟨?_, ?_, ?_⟩
  · intro toc
    simp [Toc.is_empty]
  · intro e
    rfl
  · intro e1 e2 h
    simp [Toc.new, Toc.add, Toc.is_empty, addLast, if_neg (not_lt.mpr h)]

/-- Witness for C9 at concrete inputs: two level-1 entries, the second not
deeper than the first, leave the toc non-empty. -/
theorem c9_is_empty_iff_witness :
    ((TocElement.mk 1 "b" "B" []).level ≤ (TocElement.mk 1 "a" "A" []).level)
    ∧ ((Toc.new.add (TocElement.mk 1 "a" "A" [])).add
        (TocElement.mk 1 "b" "B" [])).is_empty = false :=
  ⟨by decide,
    c9_is_empty_iff.2.2 (TocElement.mk 1 "a" "A" []) (TocElement.mk 1 "b" "B" [])
      (by decide)⟩

/-- Claim C4 counterexample: with a parent at level 5 and a child at level 1
holding a grandchild at level 3, the propagation rule as the claim words it —
recurse only into children whose pre-rewrite level was at most the OLD level
of the node, leaving other children unchanged (childSpec) — would leave the
grandchild at level 3, but the code compares against the freshly written
level and lifts it to 7, so the claim as stated fails at this input. -/
theorem c4_counterexample :
    levelsOf ((TocElement.mk 5 "p" "P" []).child
        (TocElement.mk 1 "c" "C" [TocElement.mk 3 "g" "G" []])) = [5, 6, 7]
    ∧ levelsOf (childSpec (TocElement.mk 5 "p" "P" [])
        (TocElement.mk 1 "c" "C" [TocElement.mk 3 "g" "G" []])) = [5, 6, 3]
    ∧ ([5, 6, 7] : List Int) ≠ [5, 6, 3] :=
  ⟨by decide, by decide, by decide⟩

/-- Claim C4 as amended: child attaches an already-deeper entry unchanged
and otherwise attaches level_up of the entry at parent level + 1, appended at
the end of the children; level_up writes the requested level into the node
and recurses with new level + 1 into exactly those children whose level is at
most the NEW level (the one just written), leaving the other children
unchanged. -/
theorem c4_level_normalization :
    (∀ (l : Int) (u t : String) (cs : List TocElement) (c : TocElement),
      c.level ≤ l →
        TocElement.child (.mk l u t cs) c = .mk l u t (cs ++ [c.level_up (l + 1)])
          ∧ (c.level_up (l + 1)).level = l + 1)
    ∧ (∀ (l : Int) (u t : String) (cs : List TocElement) (c : TocElement),
      l < c.level → TocElement.child (.mk l u t cs) c = .mk l u t (cs ++ [c]))
    ∧ (∀ (e : TocElement) (n : Int), (e.level_up n).level = n)
    ∧ (∀ (l n : Int) (u t : String) (cs : List TocElement),
      TocElement.level_up (.mk l u t cs) n
        = .mk n u t (cs.map fun ch => if ch.level ≤ n then ch.level_up (n + 1) else ch)) := by
  refine ⟨?_, ?_, level_up_level, ?_⟩
  · intro l u t cs c h
    exact ⟨by simp [TocElement.child, if_pos h], level_up_level c (l + 1)⟩
  · intro l u t cs c h
    simp [TocElement.child, if_neg (not_le.mpr h)]
  · intro l n u t cs
    simp [TocElement.level_up, levelUpChildren_eq_map]

/-- Witness for the amended C4 at concrete inputs: equal levels force the
lift of the attached child to parent level + 1. -/
theorem c4_level_normalization_witness :
    ((TocElement.mk 3 "c" "C" []).level ≤ (3 : Int))
    ∧ (TocElement.child (.mk 3 "p" "P" []) (TocElement.mk 3 "c" "C" [])
        = .mk 3 "p" "P" ([] ++ [(TocElement.mk 3 "c" "C" []).level_up (3 + 1)])
      ∧ ((TocElement.mk 3 "c" "C" []).level_up (3 + 1)).level = 3 + 1) :=
  ⟨by decide,
    c4_level_normalization.1 3 "p" "P" [] (TocElement.mk 3 "c" "C" []) (by decide)⟩

set_option maxRecDepth 10000 in
/-- Claim C5: an entry with an empty title renders to the empty string in
list form, its whole subtree included, while render_epub still emits a full
navigation point for it and recurses into its children; shown in general
through the closed navString form and on a concrete empty-titled entry with
a non-empty-titled child. -/
theorem c5_empty_title :
    (∀ (l : Int) (u : String) (cs : List TocElement) (numbered : Bool),
      TocElement.render (.mk l u "" cs) numbered = "")
    ∧ (∀ (l : Int) (u : String) (cs : List TocElement) (off : Nat),
      TocElement.render_epub (.mk l u "" cs) off
        = (off + (1 + sizeList cs), navString (.mk l u "" cs) (off + 1)))
    ∧ TocElement.render (.mk 1 "u" "" [.mk 2 "v" "T" []]) false = ""
    ∧ TocElement.render_epub (.mk 1 "u" "" [.mk 2 "v" "T" []]) 0
        = (2, "\n<navPoint id=\"navPoint-1\">\n  <navLabel>\n   <text></text>\n  </navLabel>\n  <content src=\"u\" />\n\n<navPoint id=\"navPoint-2\">\n  <navLabel>\n   <text>T</text>\n  </navLabel>\n  <content src=\"v\" />\n\n</navPoint>\n</navPoint>") := by
  refine ⟨?_, ?_, by decide, by decide⟩
  · intro l u cs numbered
    simp [TocElement.render]
  · intro l u cs off
    have h : (TocElement.mk l u "" cs).size = 1 + sizeList cs := by
      simp [TocElement.size]
    rw [renderEpub_eq (.mk l u "" cs) off, h]

set_option maxRecDepth 10000 in
/-- Claim C6: for every entry, with any children, in both rendering forms
the title is inserted only through the escaping step (trimmed in the navMap
form) and the url is inserted verbatim; the escaping sends an
ampersand-holding title to its escaped form in both outputs, also when the
entry has children. -/
theorem c6_escaping :
    (∀ (l : Int) (u t : String) (cs : List TocElement) (numbered : Bool), t ≠ "" →
      TocElement.render (.mk l u t cs) numbered
        = "<li><a href=\"" ++ u ++ "\">" ++ encodeText t ++ "</a>"
            ++ (match cs with
                | [] => ""
                | _ :: _ =>
                  "\n<" ++ oul numbered ++ ">" ++ renderChildren cs numbered
                    ++ "\n</" ++ oul numbered ++ ">\n")
            ++ "</li>\n")
    ∧ (∀ (l : Int) (u t : String) (cs : List TocElement) (off : Nat),
      (TocElement.render_epub (.mk l u t cs) off).2
        = "\n<navPoint id=\"navPoint-" ++ toString (off + 1)
            ++ "\">\n  <navLabel>\n   <text>" ++ trimText (encodeText t)
            ++ "</text>\n  </navLabel>\n  <content src=\"" ++ u ++ "\" />\n"
            ++ (renderEpubChildren cs (off + 1)).2 ++ "\n</navPoint>")
    ∧ encodeText "D&D" = "D&amp;D"
    ∧ tocAmpersand.render false = "<ul>\n<li><a href=\"#1\">D&amp;D</a></li>\n\n</ul>\n"
    ∧ tocAmpersand.render_epub
        = "\n<navPoint id=\"navPoint-1\">\n  <navLabel>\n   <text>D&amp;D</text>\n  </navLabel>\n  <content src=\"#1\" />\n\n</navPoint>"
    ∧ tocNested.render false
        = "<ul>\n<li><a href=\"#1\">D&amp;D</a>\n<ul><li><a href=\"#2\">a&lt;b</a></li>\n\n</ul>\n</li>\n\n</ul>\n"
    ∧ tocNested.render_epub
        = "\n<navPoint id=\"navPoint-1\">\n  <navLabel>\n   <text>D&amp;D</text>\n  </navLabel>\n  <content src=\"#1\" />\n\n<navPoint id=\"navPoint-2\">\n  <navLabel>\n   <text>a&lt;b</text>\n  </navLabel>\n  <content src=\"#2\" />\n\n</navPoint>\n</navPoint>" := by
  refine ⟨?_, ?_, by decide, by decide, by decide, by decide, by decide⟩
  · intro l u t cs numbered h
    simp [TocElement.render, if_neg h]
  · intro l u t cs off
    rw [renderEpub_eq (.mk l u t cs) off, renderEpubChildren_eq cs (off + 1)]
    simp [navString]

/-- Witness for C6 at a concrete non-empty title holding an ampersand, on an
entry that has a child. -/
theorem c6_escaping_witness :
    (("T&" : String) ≠ "")
    ∧ TocElement.render (.mk 1 "#u" "T&" [TocElement.mk 2 "#v" "c<d" []]) false
        = "<li><a href=\"" ++ "#u" ++ "\">" ++ encodeText "T&" ++ "</a>"
            ++ (match [TocElement.mk 2 "#v" "c<d" []] with
                | [] => ""
                | _ :: _ =>
                  "\n<" ++ oul false ++ ">"
                    ++ renderChildren [TocElement.mk 2 "#v" "c<d" []] false
                    ++ "\n</" ++ oul false ++ ">\n")
            ++ "</li>\n" :=
  ⟨by decide,
    c6_escaping.1 1 "#u" "T&" [TocElement.mk 2 "#v" "c<d" []] false (by decide)⟩

/-- Claim C7: every public operation keeps the strict-depth invariant —
child on invariant-satisfying trees, level_up re-establishing it with the
requested root level, add on an entry whenever the inserted element is
strictly deeper (which holds on every recursive call reached from Toc.add),
and Toc.add over the top-level elements with no side condition. -/
theorem c7_strict_depth :
    (∀ p c : TocElement, strictDepth p = true → strictDepth c = true →
        strictDepth (p.child c) = true)
    ∧ (∀ (e : TocElement) (n : Int), strictDepth e = true →
        strictDepth (e.level_up n) = true ∧ (e.level_up n).level = n)
    ∧ (∀ p e : TocElement, strictDepth p = true → strictDepth e = true →
        p.level < e.level → strictDepth (p.add e) = true)
    ∧ (∀ (toc : Toc) (e : TocElement), toc.strictInv = true →
        strictDepth e = true → (toc.add e).strictInv = true) := by
  refine ⟨child_strict, ?_, add_strict, ?_⟩
  · intro e n h
    exact ⟨levelUp_strict e n h, level_up_level e n⟩
  · intro toc e ht he
    show (addLast toc.elements e).all strictDepth = true
    exact addLast_all_strict toc.elements e ht he

/-- Witness for C7 at concrete inputs: one level-1 entry receiving a level-2
entry by add. -/
theorem c7_strict_depth_witness :
    (strictDepth (TocElement.mk 1 "a" "A" []) = true)
    ∧ (strictDepth (TocElement.mk 2 "b" "B" []) = true)
    ∧ ((TocElement.mk 1 "a" "A" []).level < (TocElement.mk 2 "b" "B" []).level)
    ∧ strictDepth ((TocElement.mk 1 "a" "A" []).add (TocElement.mk 2 "b" "B" [])) = true :=
  ⟨by decide, by decide, by decide,
    c7_strict_depth.2.2.1 (TocElement.mk 1 "a" "A" []) (TocElement.mk 2 "b" "B" [])
      (by decide) (by decide) (by decide)⟩

/-- Claim C10: the state-passing embeddings of the two render operations,
which take the toc by mutable reference in the source, hand back the toc
unchanged: the returned state equals the input, the output string equals the
pure rendering, rendering twice in a row gives identical strings, and an add
after a render behaves as if the render had not happened. -/
theorem c10_render_pure :
    (∀ (toc : Toc) (numbered : Bool),
      (toc.renderMut numbered).2 = toc
        ∧ (toc.renderMut numbered).1 = toc.render numbered)
    ∧ (∀ toc : Toc, toc.renderEpubMut.2 = toc ∧ toc.renderEpubMut.1 = toc.render_epub)
    ∧ (∀ (toc : Toc) (numbered : Bool),
      ((toc.renderMut numbered).2.renderMut numbered).1 = (toc.renderMut numbered).1)
    ∧ (∀ toc : Toc, (toc.renderEpubMut.2.renderEpubMut).1 = toc.renderEpubMut.1)
    ∧ (∀ (toc : Toc) (numbered : Bool) (e : TocElement),
      ((toc.renderMut numbered).2.add e) = toc.add e
        ∧ (toc.renderEpubMut.2.add e) = toc.add e) := by
  have hm : ∀ (toc : Toc) (numbered : Bool),
      (toc.renderMut numbered).2 = toc
        ∧ (toc.renderMut numbered).1 = toc.render numbered := by
    intro toc numbered
    simp [Toc.renderMut, renderElemsMut_eq, Toc.render]
  have he : ∀ toc : Toc,
      toc.renderEpubMut.2 = toc ∧ toc.renderEpubMut.1 = toc.render_epub := by
    intro toc
    simp [Toc.renderEpubMut, renderEpubElemsMut_eq, Toc.render_epub]
  refine ⟨hm, he, ?_, ?_, ?_⟩
  · intro toc numbered
    rw [(hm toc numbered).1]
  · intro toc
    rw [(he toc).1]
  · intro toc numbered e
    rw [(hm toc numbered).1, (he toc).1]
    exact ⟨rfl, rfl⟩

end Epub
